import Mathlib

/-
Shallow embedding of src/app.py, a single-user Flask todo application.

The embedded parts are the ones the verified claims refer to:
  * the task store operations add_task, toggle_task, edit_task, delete_task,
    restore_task (each performing one task mutation plus one event-log insert),
  * the undo engine undo_last,
  * the read side of index: the show filter, the two ORDER BY variants, and
    the badge derivation.

Modelling conventions:
  * A database row of the tasks table is a TaskRow; the events table rows are
    Event values whose payload_json is modelled as a typed EventAction (the
    payload shape is fully determined by the action tag in app.py).
  * SQLite INTEGER PRIMARY KEY AUTOINCREMENT is modelled by the counters
    nextTaskId / nextEventId, which only ever grow (AUTOINCREMENT ids are
    never reused, even after row deletion).
  * now_iso() timestamps are passed in as an explicit argument ts.
  * Python str.strip() is modelled by pyStrip over the full set of
    characters str.isspace() accepts; Python string comparison and SQLite
    TEXT collation are both code-point lexicographic and are modelled by
    strLt / strLe.
  * UPDATE ... WHERE id=? is modelled by updateById, which, exactly like the
    SQL statement, maps the change over every matching row and is a no-op
    when no row matches (SQLite raises no error in that case, a fact that
    matters for the undo engine).
-/

/-- Lexicographic comparison of character lists by code point. This is how
Python compares strings and how SQLite compares TEXT values (memcmp over
UTF-8 agrees with code-point order). -/
def strLtAux : List Char → List Char → Bool
  | _, [] => false
  | [], _ :: _ => true
  | a :: as, b :: bs => if a < b then true else if a = b then strLtAux as bs else false

/-- Python string a < b. -/
def strLt (a b : String) : Bool := strLtAux a.data b.data

/-- Python string a <= b. -/
def strLe (a b : String) : Bool := strLtAux a.data b.data || a.data == b.data

/-- The characters Python str.strip() removes, i.e. those str.isspace()
accepts: tab through carriage return (0x09 to 0x0d), the file/group/record/
unit separators 0x1c to 0x1f, the space, next line (0x85), no-break space
(0xa0), ogham space mark (0x1680), the en-quad to hair-space range (0x2000
to 0x200a), the line and paragraph separators (0x2028, 0x2029), the narrow
no-break space (0x202f), the medium mathematical space (0x205f) and the
ideographic space (0x3000). -/
def pyIsSpace (c : Char) : Bool :=
  (0x09 ≤ c.toNat && c.toNat ≤ 0x0d) ||
  (0x1c ≤ c.toNat && c.toNat ≤ 0x1f) ||
  c.toNat == 0x20 || c.toNat == 0x85 || c.toNat == 0xa0 || c.toNat == 0x1680 ||
  (0x2000 ≤ c.toNat && c.toNat ≤ 0x200a) ||
  c.toNat == 0x2028 || c.toNat == 0x2029 ||
  c.toNat == 0x202f || c.toNat == 0x205f || c.toNat == 0x3000

/-- Python str.strip(): drop whitespace from both ends. -/
def pyStrip (s : String) : String :=
  ⟨((s.data.dropWhile pyIsSpace).reverse.dropWhile pyIsSpace).reverse⟩

/-- A row of the tasks table (src/app.py, init_db). due is NULL or a TEXT
value; done and deleted are stored as 0/1 integers and modelled as Bool. -/
structure TaskRow where
  id : Nat
  title : String
  due : Option String
  done : Bool
  deleted : Bool
  createdAt : String
  updatedAt : String
deriving Repr, DecidableEq

/-- The action tag of an event row together with its payload_json content.
In app.py the payload shape is determined by the action string:
create stores {title, due_date}; toggle stores {before_done, after_done};
edit stores {before_title, after_title, before_due, after_due};
delete stores {title, was_done, due_date}; restore stores {title, due_date}. -/
inductive EventAction where
  | create (title : String) (due : Option String)
  | toggle (beforeDone afterDone : Bool)
  | edit (beforeTitle afterTitle : String) (beforeDue afterDue : Option String)
  | delete (title : String) (wasDone : Bool) (due : Option String)
  | restore (title : String) (due : Option String)
deriving Repr, DecidableEq

/-- A row of the events table. task_id is nullable in the schema but every
log_event call site passes a task id, so it is modelled as Nat. -/
structure Event where
  id : Nat
  action : EventAction
  taskId : Nat
  createdAt : String
deriving Repr, DecidableEq

/-- The whole persistent state: both tables plus the AUTOINCREMENT counters.
Rows appear in insertion order; ids of live rows are below the counters. -/
structure DB where
  tasks : List TaskRow
  events : List Event
  nextTaskId : Nat
  nextEventId : Nat
deriving Repr, DecidableEq

/-- fetch_task: SELECT * FROM tasks WHERE id = ?. Returns none where app.py
raises ValueError with the message that the task was not found. -/
def fetchTask (db : DB) (tid : Nat) : Option TaskRow :=
  db.tasks.find? (fun t => t.id == tid)

/-- UPDATE tasks SET ... WHERE id = ?: apply f to every row whose id matches;
a no-op when no row matches. -/
def updateById (l : List TaskRow) (tid : Nat) (f : TaskRow → TaskRow) : List TaskRow :=
  l.map (fun t => if t.id == tid then f t else t)

/-- log_event: INSERT INTO events (action, task_id, payload_json, created_at). -/
def logEvent (db : DB) (action : EventAction) (tid : Nat) (ts : String) : DB :=
  { db with events := db.events ++ [⟨db.nextEventId, action, tid, ts⟩],
            nextEventId := db.nextEventId + 1 }

/-- The due_date value stored by add_task / edit_task:
(request value or "").strip() or None. -/
def stripOrNone (s : String) : Option String :=
  if pyStrip s = "" then none else some (pyStrip s)

/-- add_task: validate the stripped title, then INSERT the task row and log a
create event. On an empty stripped title app.py flashes an error and
redirects with no state change. -/
def addTask (db : DB) (titleRaw dueRaw ts : String) : DB :=
  let title := pyStrip titleRaw
  if title = "" then db
  else
    let tid := db.nextTaskId
    logEvent
      { db with
        tasks := db.tasks ++ [⟨tid, title, stripOrNone dueRaw, false, false, ts, ts⟩],
        nextTaskId := tid + 1 }
      (.create title (stripOrNone dueRaw)) tid ts

/-- Outcome of toggle_task as seen at the request boundary. -/
inductive ToggleOutcome where
  | notFound
  | invalidState
  | ok
deriving Repr, DecidableEq

/-- toggle_task: fetch, reject a soft-deleted task, otherwise flip done,
refresh updated_at and log a toggle event. -/
def toggleTask (db : DB) (tid : Nat) (ts : String) : ToggleOutcome × DB :=
  match fetchTask db tid with
  | none => (.notFound, db)
  | some task =>
    if task.deleted then (.invalidState, db)
    else
      let afterDone := !task.done
      (.ok, logEvent
        { db with tasks := updateById db.tasks tid (fun t => { t with done := afterDone, updatedAt := ts }) }
        (.toggle task.done afterDone) tid ts)

/-- Outcome of edit_task as seen at the request boundary. -/
inductive EditOutcome where
  | validationError
  | notFound
  | ok
deriving Repr, DecidableEq

/-- edit_task: validate the stripped title first, then fetch, then UPDATE
title/due_date/updated_at and log an edit event carrying the old values. -/
def editTask (db : DB) (tid : Nat) (titleRaw dueRaw ts : String) : EditOutcome × DB :=
  let title := pyStrip titleRaw
  let due := stripOrNone dueRaw
  if title = "" then (.validationError, db)
  else
    match fetchTask db tid with
    | none => (.notFound, db)
    | some task =>
      (.ok, logEvent
        { db with tasks := updateById db.tasks tid (fun t => { t with title := title, due := due, updatedAt := ts }) }
        (.edit task.title title task.due due) tid ts)

/-- Outcome of delete_task as seen at the request boundary. -/
inductive DeleteOutcome where
  | notFound
  | alreadyDeleted
  | ok
deriving Repr, DecidableEq

/-- delete_task: fetch; if the task is already deleted just redirect (no
UPDATE, no event); otherwise set deleted=1, refresh updated_at and log a
delete event carrying the pre-delete {title, was_done, due_date}. -/
def deleteTask (db : DB) (tid : Nat) (ts : String) : DeleteOutcome × DB :=
  match fetchTask db tid with
  | none => (.notFound, db)
  | some task =>
    if task.deleted then (.alreadyDeleted, db)
    else
      (.ok, logEvent
        { db with tasks := updateById db.tasks tid (fun t => { t with deleted := true, updatedAt := ts }) }
        (.delete task.title task.done task.due) tid ts)

/-- Outcome of restore_task as seen at the request boundary. -/
inductive RestoreOutcome where
  | notFound
  | notDeleted
  | ok
deriving Repr, DecidableEq

/-- restore_task: fetch; if the task is not deleted just redirect (no UPDATE,
no event); otherwise set deleted=0, refresh updated_at and log a restore
event. -/
def restoreTask (db : DB) (tid : Nat) (ts : String) : RestoreOutcome × DB :=
  match fetchTask db tid with
  | none => (.notFound, db)
  | some task =>
    if !task.deleted then (.notDeleted, db)
    else
      (.ok, logEvent
        { db with tasks := updateById db.tasks tid (fun t => { t with deleted := false, updatedAt := ts }) }
        (.restore task.title task.due) tid ts)

/-- SELECT * FROM events ORDER BY id DESC LIMIT 1: the event with the
largest id (event ids are unique, being a primary key). -/
def mostRecent : List Event → Option Event
  | [] => none
  | e :: es =>
    match mostRecent es with
    | none => some e
    | some m => if m.id < e.id then some e else some m

/-- Outcome of undo_last as seen at the request boundary. failed is the
except branch of app.py; it fires only when applying the inverse raises an
exception. The UPDATE and DELETE statements used by the inverses succeed in
SQLite even when no row matches the id, and for well-formed events every
payload key the handler reads is present, so the branch is unreachable in
this model. -/
inductive UndoOutcome where
  | nothingToUndo
  | undone
  | failed
deriving Repr, DecidableEq

/-- undo_last: peek the event with the largest id; apply the inverse of its
action (create: hard-DELETE the task row; toggle: done := before_done;
edit: title/due := the before values; delete: deleted := 0;
restore: deleted := 1; the four UPDATE inverses refresh updated_at);
then DELETE the event row itself. -/
def undoLast (db : DB) (ts : String) : UndoOutcome × DB :=
  match mostRecent db.events with
  | none => (.nothingToUndo, db)
  | some ev =>
    let tasks' :=
      match ev.action with
      | .create _ _ => db.tasks.filter (fun t => t.id != ev.taskId)
      | .toggle beforeDone _ =>
          updateById db.tasks ev.taskId (fun t => { t with done := beforeDone, updatedAt := ts })
      | .edit beforeTitle _ beforeDue _ =>
          updateById db.tasks ev.taskId (fun t => { t with title := beforeTitle, due := beforeDue, updatedAt := ts })
      | .delete _ _ _ =>
          updateById db.tasks ev.taskId (fun t => { t with deleted := false, updatedAt := ts })
      | .restore _ _ =>
          updateById db.tasks ev.taskId (fun t => { t with deleted := true, updatedAt := ts })
    (.undone, { db with tasks := tasks', events := db.events.filter (fun e => e.id != ev.id) })

/-- The WHERE clause selected by the show query parameter in index. Any value
outside all/completed/deleted, including the default "active", takes the
final else branch: deleted=0 AND done=0. -/
def filterShow (shw : String) (tasks : List TaskRow) : List TaskRow :=
  if shw = "all" then tasks.filter (fun t => !t.deleted)
  else if shw = "completed" then tasks.filter (fun t => !t.deleted && t.done)
  else if shw = "deleted" then tasks.filter (fun t => t.deleted)
  else tasks.filter (fun t => !t.deleted && !t.done)

/-- CASE WHEN due_date IS NULL OR due_date='' THEN 1 ELSE 0 END, as a Bool:
true exactly for the rows the due sort pushes to the back. -/
def noDue (t : TaskRow) : Bool :=
  match t.due with
  | none => true
  | some d => d == ""

/-- The CASE bucket of the due sort: dated rows are 0, NULL/empty rows 1. -/
def dueBucket (t : TaskRow) : Nat := if noDue t then 1 else 0

/-- SQLite comparison of two due_date column values under ORDER BY ... ASC:
NULL sorts before every TEXT value, TEXT values compare by collation order. -/
def dueFieldLt (a b : Option String) : Bool :=
  match a, b with
  | none, none => false
  | none, some _ => true
  | some _, none => false
  | some x, some y => strLt x y

/-- ORDER BY CASE ... END, due_date ASC, updated_at DESC as a total preorder
on rows (the lexicographic at-most relation realised by that ORDER BY). -/
def dueLe (a b : TaskRow) : Bool :=
  if dueBucket a = dueBucket b then
    if a.due = b.due then strLe b.updatedAt a.updatedAt
    else dueFieldLt a.due b.due
  else dueBucket a < dueBucket b

/-- ORDER BY updated_at DESC as a total preorder on rows. -/
def recentLe (a b : TaskRow) : Bool := strLe b.updatedAt a.updatedAt

/-- The due ORDER BY relation as a Prop, for the sorting function. -/
def dueLeP (a b : TaskRow) : Prop := dueLe a b = true

/-- The recent ORDER BY relation as a Prop, for the sorting function. -/
def recentLeP (a b : TaskRow) : Prop := recentLe a b = true

instance : DecidableRel dueLeP :=
  fun a b => inferInstanceAs (Decidable (dueLe a b = true))

instance : DecidableRel recentLeP :=
  fun a b => inferInstanceAs (Decidable (recentLe a b = true))

/-- The rows returned by the SELECT in index for given show / sort values:
the filtered rows arranged into one of the two ORDER BY orders (SQLite
promises no particular arrangement of rows its ORDER BY considers tied, so
any sort realising the order relation is a faithful model). -/
def listTasks (shw srt : String) (tasks : List TaskRow) : List TaskRow :=
  let rows := filterShow shw tasks
  if srt = "due" then List.insertionSort dueLeP rows
  else List.insertionSort recentLeP rows

/-- Python truthiness of t.get("due_date"): false for NULL and for the empty
string. -/
def dueTruthy : Option String → Bool
  | none => false
  | some d => d != ""

/-- The badge computed in index for one row: only a non-deleted, non-done row
with a truthy due_date gets one, picked by comparing due_date with the
iso date string for today. -/
def badge (t : TaskRow) (today : String) : Option (String × String) :=
  if !t.deleted && !t.done && dueTruthy t.due then
    match t.due with
    | none => none
    | some d =>
      if strLt d today then some ("Overdue", "danger")
      else if d == today then some ("Due today", "warning")
      else some ("Scheduled", "secondary")
  else none

/-- The decoration loop of index: each fetched row is paired with its badge;
the rows themselves are passed through unchanged and nothing is written
back to the store. -/
def decorate (tasks : List TaskRow) (today : String) : List (TaskRow × Option (String × String)) :=
  tasks.map (fun t => (t, badge t today))

/-
Order facts about the embedded string comparison, needed to apply the
sortedness theorem of mergeSort to the two ORDER BY relations.
-/

theorem strLtAux_irrefl : ∀ as, strLtAux as as = false
  | [] => rfl
  | a :: as => by simp [strLtAux, lt_self_iff_false, strLtAux_irrefl as]

theorem strLtAux_trans :
    ∀ as bs cs, strLtAux as bs = true → strLtAux bs cs = true → strLtAux as cs = true := by
  intro as
  induction as with
  | nil =>
    intro bs cs h1 h2
    cases cs with
    | nil => cases bs <;> simp [strLtAux] at *
    | cons c cs' => simp [strLtAux]
  | cons a as ih =>
    intro bs cs h1 h2
    cases bs with
    | nil => simp [strLtAux] at h1
    | cons b bs' =>
      cases cs with
      | nil => simp [strLtAux] at h2
      | cons c cs' =>
        simp only [strLtAux] at *
        by_cases hab : a < b
        · by_cases hbc : b < c
          · simp [lt_trans hab hbc]
          · simp [hab] at h1
            by_cases hbceq : b = c
            · subst hbceq; simp [hab]
            · simp [hbc, hbceq] at h2
        · simp [hab] at h1
          obtain ⟨haeq, h1'⟩ := h1
          subst haeq
          by_cases hbc : a < c
          · simp [hbc]
          · by_cases hbceq : a = c
            · subst hbceq
              simp [hbc, ih bs' cs' h1' (by simpa [hbc] using h2)]
            · simp [hbc, hbceq] at h2

theorem strLtAux_tricho :
    ∀ as bs, strLtAux as bs = true ∨ as = bs ∨ strLtAux bs as = true := by
  intro as
  induction as with
  | nil =>
    intro bs
    cases bs with
    | nil => exact Or.inr (Or.inl rfl)
    | cons b bs' => exact Or.inl (by simp [strLtAux])
  | cons a as ih =>
    intro bs
    cases bs with
    | nil => exact Or.inr (Or.inr (by simp [strLtAux]))
    | cons b bs' =>
      rcases lt_trichotomy a b with h | h | h
      · exact Or.inl (by simp [strLtAux, h])
      · subst h
        rcases ih bs' with h' | h' | h'
        · exact Or.inl (by simp [strLtAux, lt_self_iff_false, h'])
        · exact Or.inr (Or.inl (by rw [h']))
        · exact Or.inr (Or.inr (by simp [strLtAux, lt_self_iff_false, h']))
      · exact Or.inr (Or.inr (by simp [strLtAux, h]))

theorem str_eq_of_data_eq {a b : String} (h : a.data = b.data) : a = b := by
  cases a; cases b; exact congrArg String.mk h

theorem strLe_refl (a : String) : strLe a a = true := by simp [strLe]

theorem strLt_le {a b : String} (h : strLt a b = true) : strLe a b = true := by
  simp only [strLe, Bool.or_eq_true]
  exact Or.inl h

theorem strLe_trans {a b c : String} (h1 : strLe a b = true) (h2 : strLe b c = true) :
    strLe a c = true := by
  simp only [strLe, Bool.or_eq_true, beq_iff_eq] at *
  rcases h1 with h1 | h1
  · rcases h2 with h2 | h2
    · exact Or.inl (strLtAux_trans _ _ _ h1 h2)
    · exact Or.inl (h2 ▸ h1)
  · rcases h2 with h2 | h2
    · exact Or.inl (h1 ▸ h2)
    · exact Or.inr (h1.trans h2)

theorem strLe_total (a b : String) : (strLe a b || strLe b a) = true := by
  simp only [strLe, Bool.or_eq_true, beq_iff_eq]
  rcases strLtAux_tricho a.data b.data with h | h | h
  · exact Or.inl (Or.inl h)
  · exact Or.inl (Or.inr h)
  · exact Or.inr (Or.inl h)

theorem dueFieldLt_irrefl (a : Option String) : dueFieldLt a a = false := by
  cases a with
  | none => rfl
  | some x => simp [dueFieldLt, strLt, strLtAux_irrefl]

theorem dueFieldLt_trans {a b c : Option String} (h1 : dueFieldLt a b = true)
    (h2 : dueFieldLt b c = true) : dueFieldLt a c = true := by
  cases a <;> cases b <;> cases c <;> simp [dueFieldLt, strLt] at *
  exact strLtAux_trans _ _ _ h1 h2

theorem dueFieldLt_conn {a b : Option String} (h : a ≠ b) :
    (dueFieldLt a b || dueFieldLt b a) = true := by
  cases a with
  | none =>
    cases b with
    | none => exact absurd rfl h
    | some y => simp [dueFieldLt]
  | some x =>
    cases b with
    | none => simp [dueFieldLt]
    | some y =>
      simp only [dueFieldLt, strLt, Bool.or_eq_true]
      rcases strLtAux_tricho x.data y.data with h' | h' | h'
      · exact Or.inl h'
      · exact absurd (congrArg some (str_eq_of_data_eq h')) h
      · exact Or.inr h'

theorem noDue_congr {a b : TaskRow} (h : a.due = b.due) : noDue a = noDue b := by
  simp [noDue, h]

theorem dueBucket_congr {a b : TaskRow} (h : a.due = b.due) : dueBucket a = dueBucket b := by
  simp [dueBucket, noDue_congr h]

theorem dueLe_trans :
    ∀ a b c : TaskRow, dueLe a b = true → dueLe b c = true → dueLe a c = true := by
  intro a b c h1 h2
  simp only [dueLe] at *
  by_cases hab : dueBucket a = dueBucket b <;> by_cases hbc : dueBucket b = dueBucket c
  · have hac : dueBucket a = dueBucket c := hab.trans hbc
    simp only [if_pos hab] at h1
    simp only [if_pos hbc] at h2
    simp only [if_pos hac]
    by_cases d1 : a.due = b.due <;> by_cases d2 : b.due = c.due
    · simp only [if_pos d1] at h1
      simp only [if_pos d2] at h2
      simp only [if_pos (d1.trans d2)]
      exact strLe_trans h2 h1
    · simp only [if_pos d1] at h1
      simp only [if_neg d2] at h2
      have dac : a.due ≠ c.due := fun h => d2 (d1 ▸ h ▸ rfl)
      simp only [if_neg dac]
      exact d1 ▸ h2
    · simp only [if_neg d1] at h1
      simp only [if_pos d2] at h2
      have dac : a.due ≠ c.due := fun h => d1 (h.trans d2.symm)
      simp only [if_neg dac]
      exact d2 ▸ h1
    · simp only [if_neg d1] at h1
      simp only [if_neg d2] at h2
      have hlt := dueFieldLt_trans h1 h2
      have dac : a.due ≠ c.due := by
        intro h
        rw [h] at hlt
        rw [dueFieldLt_irrefl] at hlt
        exact Bool.false_ne_true hlt
      simp only [if_neg dac]
      exact hlt
  · simp only [if_pos hab] at h1
    simp only [if_neg hbc, decide_eq_true_eq] at h2
    have hlt : dueBucket a < dueBucket c := hab ▸ h2
    simp only [if_neg (Nat.ne_of_lt hlt), decide_eq_true_eq]
    exact hlt
  · simp only [if_neg hab, decide_eq_true_eq] at h1
    simp only [if_pos hbc] at h2
    have hlt : dueBucket a < dueBucket c := hbc ▸ h1
    simp only [if_neg (Nat.ne_of_lt hlt), decide_eq_true_eq]
    exact hlt
  · simp only [if_neg hab, decide_eq_true_eq] at h1
    simp only [if_neg hbc, decide_eq_true_eq] at h2
    have hlt : dueBucket a < dueBucket c := Nat.lt_trans h1 h2
    simp only [if_neg (Nat.ne_of_lt hlt), decide_eq_true_eq]
    exact hlt

theorem dueLe_total : ∀ a b : TaskRow, (dueLe a b || dueLe b a) = true := by
  intro a b
  simp only [dueLe]
  by_cases hab : dueBucket a = dueBucket b
  · simp only [if_pos hab, if_pos hab.symm]
    by_cases d : a.due = b.due
    · simp only [if_pos d, if_pos d.symm]
      exact strLe_total b.updatedAt a.updatedAt
    · simp only [if_neg d, if_neg (Ne.symm d)]
      exact dueFieldLt_conn d
  · simp only [if_neg hab, if_neg (Ne.symm hab), Bool.or_eq_true, decide_eq_true_eq]
    rcases Nat.lt_or_ge (dueBucket a) (dueBucket b) with h | h
    · exact Or.inl h
    · exact Or.inr (Nat.lt_of_le_of_ne h (Ne.symm hab))

theorem recentLe_trans :
    ∀ a b c : TaskRow, recentLe a b = true → recentLe b c = true → recentLe a c = true := by
  intro a b c h1 h2
  exact strLe_trans h2 h1

theorem recentLe_total : ∀ a b : TaskRow, (recentLe a b || recentLe b a) = true := by
  intro a b
  exact strLe_total b.updatedAt a.updatedAt

instance : IsTotal TaskRow dueLeP :=
  ⟨fun a b => by
    have h := dueLe_total a b
    simp only [Bool.or_eq_true] at h
    exact h⟩

instance : IsTrans TaskRow dueLeP :=
  ⟨fun a b c h1 h2 => dueLe_trans a b c h1 h2⟩

instance : IsTotal TaskRow recentLeP :=
  ⟨fun a b => by
    have h := recentLe_total a b
    simp only [Bool.or_eq_true] at h
    exact h⟩

instance : IsTrans TaskRow recentLeP :=
  ⟨fun a b c h1 h2 => recentLe_trans a b c h1 h2⟩

theorem pairwise_sort_dueLe (l : List TaskRow) :
    (List.insertionSort dueLeP l).Pairwise dueLeP :=
  List.sorted_insertionSort dueLeP l

theorem pairwise_sort_recentLe (l : List TaskRow) :
    (List.insertionSort recentLeP l).Pairwise recentLeP :=
  List.sorted_insertionSort recentLeP l

/-
List facts about find?, updateById, filter and mostRecent used to reason
about the store operations and the undo engine.
-/

theorem find?_append_none {α : Type} {p : α → Bool} {l₁ l₂ : List α}
    (h : ∀ x ∈ l₁, p x = false) : (l₁ ++ l₂).find? p = l₂.find? p := by
  rw [List.find?_append]
  have hn : l₁.find? p = none := List.find?_eq_none.mpr (fun x hx => by simp [h x hx])
  rw [hn, Option.none_or]

theorem find?_id_append_last {l : List TaskRow} {t : TaskRow} {tid : Nat}
    (ht : t.id = tid) (h : ∀ x ∈ l, x.id ≠ tid) :
    (l ++ [t]).find? (fun x => x.id == tid) = some t := by
  rw [find?_append_none (fun x hx => by simp [h x hx])]
  simp [List.find?, ht]

theorem updateById_nomatch {l : List TaskRow} {tid : Nat} {f : TaskRow → TaskRow}
    (h : ∀ x ∈ l, x.id ≠ tid) : updateById l tid f = l := by
  induction l with
  | nil => rfl
  | cons x xs ih =>
    have hx : (x.id == tid) = false := by
      simpa using h x (List.mem_cons_self x xs)
    have ih' := ih (fun y hy => h y (List.mem_cons_of_mem x hy))
    simp only [updateById, List.map_cons, hx, Bool.false_eq_true, if_false] at *
    rw [ih']

theorem updateById_append (l₁ l₂ : List TaskRow) (tid : Nat) (f : TaskRow → TaskRow) :
    updateById (l₁ ++ l₂) tid f = updateById l₁ tid f ++ updateById l₂ tid f := by
  simp [updateById]

theorem updateById_singleton_match {t : TaskRow} {tid : Nat} (f : TaskRow → TaskRow)
    (ht : t.id = tid) : updateById [t] tid f = [f t] := by
  simp [updateById, ht]

theorem find?_updateById (l : List TaskRow) (tid : Nat) (f : TaskRow → TaskRow)
    (hf : ∀ u, (f u).id = u.id) :
    (updateById l tid f).find? (fun x => x.id == tid) =
      (l.find? (fun x => x.id == tid)).map f := by
  induction l with
  | nil => rfl
  | cons x xs ih =>
    by_cases hx : x.id = tid
    · simp [updateById, List.find?, hx, hf]
    · simp only [updateById, List.map_cons] at *
      have hxf : (x.id == tid) = false := by simp [hx]
      rw [if_neg (by simp [hx])]
      simp only [List.find?, hxf]
      exact ih

theorem mem_updateById_iff {l : List TaskRow} {tid : Nat} {f : TaskRow → TaskRow}
    (hf : ∀ u, (f u).id = u.id) {u : TaskRow} (hu : u.id ≠ tid) :
    u ∈ updateById l tid f ↔ u ∈ l := by
  constructor
  · intro h
    rcases List.mem_map.mp h with ⟨x, hx, hxe⟩
    by_cases hxt : x.id = tid
    · rw [if_pos (by simp [hxt])] at hxe
      exact absurd ((hxe ▸ hf x).trans hxt) hu
    · rw [if_neg (by simp [hxt])] at hxe
      exact hxe ▸ hx
  · intro h
    exact List.mem_map.mpr ⟨u, h, by simp [hu]⟩

theorem events_filter_last {l : List Event} {e : Event}
    (h : ∀ x ∈ l, x.id < e.id) :
    (l ++ [e]).filter (fun x => x.id != e.id) = l := by
  rw [List.filter_append]
  have h1 : l.filter (fun x => x.id != e.id) = l :=
    List.filter_eq_self.mpr (fun x hx => by simp [Nat.ne_of_lt (h x hx)])
  have h2 : [e].filter (fun x => x.id != e.id) = [] := by simp
  rw [h1, h2, List.append_nil]

theorem mostRecent_append_gt {l : List Event} {e : Event}
    (h : ∀ x ∈ l, x.id < e.id) : mostRecent (l ++ [e]) = some e := by
  induction l with
  | nil => rfl
  | cons x xs ih =>
    have hx : x.id < e.id := h x (List.mem_cons_self x xs)
    have ih' := ih (fun y hy => h y (List.mem_cons_of_mem x hy))
    simp [mostRecent, ih', Nat.lt_asymm hx]

theorem forall_id_lt_append {l : List Event} {e : Event} {k : Nat}
    (hl : ∀ x ∈ l, x.id < k) (he : e.id < k) : ∀ x ∈ l ++ [e], x.id < k := by
  intro x hx
  rcases List.mem_append.mp hx with h | h
  · exact hl x h
  · rw [List.mem_singleton.mp h]
    exact he

theorem tasks_filter_ne_last {l : List TaskRow} {t : TaskRow} {tid : Nat}
    (ht : t.id = tid) (h : ∀ x ∈ l, x.id ≠ tid) :
    (l ++ [t]).filter (fun x => x.id != tid) = l := by
  rw [List.filter_append]
  have h1 : l.filter (fun x => x.id != tid) = l :=
    List.filter_eq_self.mpr (fun x hx => by simp [h x hx])
  have h2 : [t].filter (fun x => x.id != tid) = [] := by simp [ht]
  rw [h1, h2, List.append_nil]

/-
Shape lemmas: each store operation applied to a state whose last task row is
fresh (no earlier row shares its id, as AUTOINCREMENT guarantees) rewrites to
an explicit successor state.
-/

theorem addTask_valid {db : DB} {titleRaw dueRaw ts : String}
    (h : pyStrip titleRaw ≠ "") :
    addTask db titleRaw dueRaw ts =
      ⟨db.tasks ++ [⟨db.nextTaskId, pyStrip titleRaw, stripOrNone dueRaw, false, false, ts, ts⟩],
       db.events ++ [⟨db.nextEventId, .create (pyStrip titleRaw) (stripOrNone dueRaw), db.nextTaskId, ts⟩],
       db.nextTaskId + 1, db.nextEventId + 1⟩ := by
  simp [addTask, logEvent, h]

theorem editTask_fresh {l : List TaskRow} {evs : List Event} {n m tid : Nat}
    {tt : String} {td : Option String} {tdone tdel : Bool} {tca tua : String}
    {titleRaw dueRaw ts : String}
    (h : pyStrip titleRaw ≠ "") (hfresh : ∀ x ∈ l, x.id ≠ tid) :
    editTask ⟨l ++ [⟨tid, tt, td, tdone, tdel, tca, tua⟩], evs, n, m⟩ tid titleRaw dueRaw ts =
      (.ok, ⟨l ++ [⟨tid, pyStrip titleRaw, stripOrNone dueRaw, tdone, tdel, tca, ts⟩],
             evs ++ [⟨m, .edit tt (pyStrip titleRaw) td (stripOrNone dueRaw), tid, ts⟩], n, m + 1⟩) := by
  have hf : fetchTask ⟨l ++ [⟨tid, tt, td, tdone, tdel, tca, tua⟩], evs, n, m⟩ tid =
      some ⟨tid, tt, td, tdone, tdel, tca, tua⟩ := find?_id_append_last rfl hfresh
  simp [editTask, h, hf, logEvent, updateById_append, updateById_nomatch hfresh,
        updateById_singleton_match]

theorem editTask_fresh2 {l : List TaskRow} {evs : List Event} {n m tid : Nat}
    {tt : String} {td : Option String} {tdone tdel : Bool} {tca tua : String}
    {titleRaw dueRaw ts : String}
    (h : pyStrip titleRaw ≠ "") (hfresh : ∀ x ∈ l, x.id ≠ tid) :
    (editTask ⟨l ++ [⟨tid, tt, td, tdone, tdel, tca, tua⟩], evs, n, m⟩ tid titleRaw dueRaw ts).2 =
      ⟨l ++ [⟨tid, pyStrip titleRaw, stripOrNone dueRaw, tdone, tdel, tca, ts⟩],
       evs ++ [⟨m, .edit tt (pyStrip titleRaw) td (stripOrNone dueRaw), tid, ts⟩], n, m + 1⟩ := by
  rw [editTask_fresh h hfresh]

theorem toggleTask_fresh {l : List TaskRow} {evs : List Event} {n m tid : Nat}
    {tt : String} {td : Option String} {tdone : Bool} {tca tua : String} {ts : String}
    (hfresh : ∀ x ∈ l, x.id ≠ tid) :
    toggleTask ⟨l ++ [⟨tid, tt, td, tdone, false, tca, tua⟩], evs, n, m⟩ tid ts =
      (.ok, ⟨l ++ [⟨tid, tt, td, !tdone, false, tca, ts⟩],
             evs ++ [⟨m, .toggle tdone (!tdone), tid, ts⟩], n, m + 1⟩) := by
  have hf : fetchTask ⟨l ++ [⟨tid, tt, td, tdone, false, tca, tua⟩], evs, n, m⟩ tid =
      some ⟨tid, tt, td, tdone, false, tca, tua⟩ := find?_id_append_last rfl hfresh
  simp [toggleTask, hf, logEvent, updateById_append, updateById_nomatch hfresh,
        updateById_singleton_match]

theorem toggleTask_fresh2 {l : List TaskRow} {evs : List Event} {n m tid : Nat}
    {tt : String} {td : Option String} {tdone : Bool} {tca tua : String} {ts : String}
    (hfresh : ∀ x ∈ l, x.id ≠ tid) :
    (toggleTask ⟨l ++ [⟨tid, tt, td, tdone, false, tca, tua⟩], evs, n, m⟩ tid ts).2 =
      ⟨l ++ [⟨tid, tt, td, !tdone, false, tca, ts⟩],
       evs ++ [⟨m, .toggle tdone (!tdone), tid, ts⟩], n, m + 1⟩ := by
  rw [toggleTask_fresh hfresh]

theorem deleteTask_fresh {l : List TaskRow} {evs : List Event} {n m tid : Nat}
    {tt : String} {td : Option String} {tdone : Bool} {tca tua : String} {ts : String}
    (hfresh : ∀ x ∈ l, x.id ≠ tid) :
    deleteTask ⟨l ++ [⟨tid, tt, td, tdone, false, tca, tua⟩], evs, n, m⟩ tid ts =
      (.ok, ⟨l ++ [⟨tid, tt, td, tdone, true, tca, ts⟩],
             evs ++ [⟨m, .delete tt tdone td, tid, ts⟩], n, m + 1⟩) := by
  have hf : fetchTask ⟨l ++ [⟨tid, tt, td, tdone, false, tca, tua⟩], evs, n, m⟩ tid =
      some ⟨tid, tt, td, tdone, false, tca, tua⟩ := find?_id_append_last rfl hfresh
  simp [deleteTask, hf, logEvent, updateById_append, updateById_nomatch hfresh,
        updateById_singleton_match]

theorem deleteTask_fresh2 {l : List TaskRow} {evs : List Event} {n m tid : Nat}
    {tt : String} {td : Option String} {tdone : Bool} {tca tua : String} {ts : String}
    (hfresh : ∀ x ∈ l, x.id ≠ tid) :
    (deleteTask ⟨l ++ [⟨tid, tt, td, tdone, false, tca, tua⟩], evs, n, m⟩ tid ts).2 =
      ⟨l ++ [⟨tid, tt, td, tdone, true, tca, ts⟩],
       evs ++ [⟨m, .delete tt tdone td, tid, ts⟩], n, m + 1⟩ := by
  rw [deleteTask_fresh hfresh]

/-
Shape lemmas for undo_last when the event with the largest id is the last
element of the event list and targets the last, fresh task row.
-/

theorem undoLast_last_del {l : List TaskRow} {evs : List Event} {n m tid : Nat}
    {tt : String} {td : Option String} {tdone tdel : Bool} {tca tua : String}
    {eid : Nat} {pt : String} {pw : Bool} {pd : Option String} {ets ts : String}
    (hfresh : ∀ x ∈ l, x.id ≠ tid) (hev : ∀ x ∈ evs, x.id < eid) :
    undoLast ⟨l ++ [⟨tid, tt, td, tdone, tdel, tca, tua⟩],
              evs ++ [⟨eid, .delete pt pw pd, tid, ets⟩], n, m⟩ ts =
      (.undone, ⟨l ++ [⟨tid, tt, td, tdone, false, tca, ts⟩], evs, n, m⟩) := by
  have hm : mostRecent (evs ++ [⟨eid, .delete pt pw pd, tid, ets⟩]) =
      some ⟨eid, .delete pt pw pd, tid, ets⟩ := mostRecent_append_gt hev
  simp [undoLast, hm, updateById_append, updateById_nomatch hfresh,
        updateById_singleton_match]
  exact fun a ha => Nat.ne_of_lt (hev a ha)

theorem undoLast_last_del2 {l : List TaskRow} {evs : List Event} {n m tid : Nat}
    {tt : String} {td : Option String} {tdone tdel : Bool} {tca tua : String}
    {eid : Nat} {pt : String} {pw : Bool} {pd : Option String} {ets ts : String}
    (hfresh : ∀ x ∈ l, x.id ≠ tid) (hev : ∀ x ∈ evs, x.id < eid) :
    (undoLast ⟨l ++ [⟨tid, tt, td, tdone, tdel, tca, tua⟩],
               evs ++ [⟨eid, .delete pt pw pd, tid, ets⟩], n, m⟩ ts).2 =
      ⟨l ++ [⟨tid, tt, td, tdone, false, tca, ts⟩], evs, n, m⟩ := by
  rw [undoLast_last_del hfresh hev]

theorem undoLast_last_toggle {l : List TaskRow} {evs : List Event} {n m tid : Nat}
    {tt : String} {td : Option String} {tdone tdel : Bool} {tca tua : String}
    {eid : Nat} {pb pa : Bool} {ets ts : String}
    (hfresh : ∀ x ∈ l, x.id ≠ tid) (hev : ∀ x ∈ evs, x.id < eid) :
    undoLast ⟨l ++ [⟨tid, tt, td, tdone, tdel, tca, tua⟩],
              evs ++ [⟨eid, .toggle pb pa, tid, ets⟩], n, m⟩ ts =
      (.undone, ⟨l ++ [⟨tid, tt, td, pb, tdel, tca, ts⟩], evs, n, m⟩) := by
  have hm : mostRecent (evs ++ [⟨eid, .toggle pb pa, tid, ets⟩]) =
      some ⟨eid, .toggle pb pa, tid, ets⟩ := mostRecent_append_gt hev
  simp [undoLast, hm, updateById_append, updateById_nomatch hfresh,
        updateById_singleton_match]
  exact fun a ha => Nat.ne_of_lt (hev a ha)

theorem undoLast_last_toggle2 {l : List TaskRow} {evs : List Event} {n m tid : Nat}
    {tt : String} {td : Option String} {tdone tdel : Bool} {tca tua : String}
    {eid : Nat} {pb pa : Bool} {ets ts : String}
    (hfresh : ∀ x ∈ l, x.id ≠ tid) (hev : ∀ x ∈ evs, x.id < eid) :
    (undoLast ⟨l ++ [⟨tid, tt, td, tdone, tdel, tca, tua⟩],
               evs ++ [⟨eid, .toggle pb pa, tid, ets⟩], n, m⟩ ts).2 =
      ⟨l ++ [⟨tid, tt, td, pb, tdel, tca, ts⟩], evs, n, m⟩ := by
  rw [undoLast_last_toggle hfresh hev]

theorem undoLast_last_edit {l : List TaskRow} {evs : List Event} {n m tid : Nat}
    {tt : String} {td : Option String} {tdone tdel : Bool} {tca tua : String}
    {eid : Nat} {pbt pat : String} {pbd pad : Option String} {ets ts : String}
    (hfresh : ∀ x ∈ l, x.id ≠ tid) (hev : ∀ x ∈ evs, x.id < eid) :
    undoLast ⟨l ++ [⟨tid, tt, td, tdone, tdel, tca, tua⟩],
              evs ++ [⟨eid, .edit pbt pat pbd pad, tid, ets⟩], n, m⟩ ts =
      (.undone, ⟨l ++ [⟨tid, pbt, pbd, tdone, tdel, tca, ts⟩], evs, n, m⟩) := by
  have hm : mostRecent (evs ++ [⟨eid, .edit pbt pat pbd pad, tid, ets⟩]) =
      some ⟨eid, .edit pbt pat pbd pad, tid, ets⟩ := mostRecent_append_gt hev
  simp [undoLast, hm, updateById_append, updateById_nomatch hfresh,
        updateById_singleton_match]
  exact fun a ha => Nat.ne_of_lt (hev a ha)

theorem undoLast_last_edit2 {l : List TaskRow} {evs : List Event} {n m tid : Nat}
    {tt : String} {td : Option String} {tdone tdel : Bool} {tca tua : String}
    {eid : Nat} {pbt pat : String} {pbd pad : Option String} {ets ts : String}
    (hfresh : ∀ x ∈ l, x.id ≠ tid) (hev : ∀ x ∈ evs, x.id < eid) :
    (undoLast ⟨l ++ [⟨tid, tt, td, tdone, tdel, tca, tua⟩],
               evs ++ [⟨eid, .edit pbt pat pbd pad, tid, ets⟩], n, m⟩ ts).2 =
      ⟨l ++ [⟨tid, pbt, pbd, tdone, tdel, tca, ts⟩], evs, n, m⟩ := by
  rw [undoLast_last_edit hfresh hev]

theorem undoLast_last_create {l : List TaskRow} {evs : List Event} {n m tid : Nat}
    {tt : String} {td : Option String} {tdone tdel : Bool} {tca tua : String}
    {eid : Nat} {ct : String} {cd : Option String} {ets ts : String}
    (hfresh : ∀ x ∈ l, x.id ≠ tid) (hev : ∀ x ∈ evs, x.id < eid) :
    undoLast ⟨l ++ [⟨tid, tt, td, tdone, tdel, tca, tua⟩],
              evs ++ [⟨eid, .create ct cd, tid, ets⟩], n, m⟩ ts =
      (.undone, ⟨l, evs, n, m⟩) := by
  have hm : mostRecent (evs ++ [⟨eid, .create ct cd, tid, ets⟩]) =
      some ⟨eid, .create ct cd, tid, ets⟩ := mostRecent_append_gt hev
  simp [undoLast, hm]
  exact ⟨fun a ha => hfresh a ha, fun a ha => Nat.ne_of_lt (hev a ha)⟩

theorem undoLast_last_create2 {l : List TaskRow} {evs : List Event} {n m tid : Nat}
    {tt : String} {td : Option String} {tdone tdel : Bool} {tca tua : String}
    {eid : Nat} {ct : String} {cd : Option String} {ets ts : String}
    (hfresh : ∀ x ∈ l, x.id ≠ tid) (hev : ∀ x ∈ evs, x.id < eid) :
    (undoLast ⟨l ++ [⟨tid, tt, td, tdone, tdel, tca, tua⟩],
               evs ++ [⟨eid, .create ct cd, tid, ets⟩], n, m⟩ ts).2 =
      ⟨l, evs, n, m⟩ := by
  rw [undoLast_last_create hfresh hev]

/-
The claims.
-/

/-- C5: for every input title that is empty or whitespace-only after
trimming, add_task rejects the request: no task row is inserted and no
event is appended, the whole state is returned unchanged. -/
theorem c5_add_blank_title_rejected (db : DB) (titleRaw dueRaw ts : String)
    (h : pyStrip titleRaw = "") :
    addTask db titleRaw dueRaw ts = db := by
  simp [addTask, h]

theorem c5_add_blank_title_rejected_witness :
    pyStrip " \t " = "" ∧ addTask ⟨[], [], 1, 1⟩ " \t " "" "t1" = ⟨[], [], 1, 1⟩ ∧
    pyStrip "\u00a0\u2003" = "" ∧ addTask ⟨[], [], 1, 1⟩ "\u00a0\u2003" "" "t1" = ⟨[], [], 1, 1⟩ :=
  ⟨by decide, c5_add_blank_title_rejected ⟨[], [], 1, 1⟩ " \t " "" "t1" (by decide),
   by decide, c5_add_blank_title_rejected ⟨[], [], 1, 1⟩ "\u00a0\u2003" "" "t1" (by decide)⟩

/-- C7: soft-deleting an already-deleted task leaves the state unchanged and
appends no event; restoring a task that is not deleted leaves the state
unchanged and appends no event. -/
theorem c7_repeat_delete_restore_noop (db : DB) (tid : Nat) (ts : String) (t : TaskRow)
    (hf : fetchTask db tid = some t) :
    (t.deleted = true → deleteTask db tid ts = (.alreadyDeleted, db)) ∧
    (t.deleted = false → restoreTask db tid ts = (.notDeleted, db)) := by
  constructor
  · intro hd
    simp [deleteTask, hf, hd]
  · intro hd
    simp [restoreTask, hf, hd]

theorem c7_repeat_delete_restore_noop_witness :
    deleteTask ⟨[⟨1, "a", none, false, true, "c0", "u0"⟩], [], 2, 1⟩ 1 "t1" =
      (.alreadyDeleted, ⟨[⟨1, "a", none, false, true, "c0", "u0"⟩], [], 2, 1⟩) ∧
    restoreTask ⟨[⟨1, "a", none, false, false, "c0", "u0"⟩], [], 2, 1⟩ 1 "t1" =
      (.notDeleted, ⟨[⟨1, "a", none, false, false, "c0", "u0"⟩], [], 2, 1⟩) :=
  ⟨(c7_repeat_delete_restore_noop ⟨[⟨1, "a", none, false, true, "c0", "u0"⟩], [], 2, 1⟩
      1 "t1" ⟨1, "a", none, false, true, "c0", "u0"⟩ (by decide)).1 rfl,
   (c7_repeat_delete_restore_noop ⟨[⟨1, "a", none, false, false, "c0", "u0"⟩], [], 2, 1⟩
      1 "t1" ⟨1, "a", none, false, false, "c0", "u0"⟩ (by decide)).2 rfl⟩

/-- C6: toggle on an id with no task row fails with NotFound and changes
nothing; toggle on an existing soft-deleted task fails with InvalidState,
changes nothing and appends no event; toggle on an existing non-deleted task
succeeds and flips done (also refreshing updated_at), leaving the other
fields as they were. -/
theorem c6_toggle_spec (db : DB) (tid : Nat) (ts : String) :
    (fetchTask db tid = none → toggleTask db tid ts = (.notFound, db)) ∧
    (∀ t, fetchTask db tid = some t → t.deleted = true →
      toggleTask db tid ts = (.invalidState, db)) ∧
    (∀ t, fetchTask db tid = some t → t.deleted = false →
      (toggleTask db tid ts).1 = ToggleOutcome.ok ∧
      fetchTask (toggleTask db tid ts).2 tid =
        some ⟨t.id, t.title, t.due, !t.done, t.deleted, t.createdAt, ts⟩) := by
  refine ⟨?_, ?_, ?_⟩
  · intro h
    simp [toggleTask, h]
  · intro t hf hd
    simp [toggleTask, hf, hd]
  · intro t hf hd
    have hstep : toggleTask db tid ts =
        (.ok, logEvent
          { db with
            tasks := updateById db.tasks tid (fun u => { u with done := !t.done, updatedAt := ts }) }
          (.toggle t.done (!t.done)) tid ts) := by
      simp [toggleTask, hf, hd]
    rw [hstep]
    refine ⟨rfl, ?_⟩
    simp only [fetchTask, logEvent]
    rw [find?_updateById db.tasks tid
          (fun u => { u with done := !t.done, updatedAt := ts }) (fun u => rfl)]
    simp only [fetchTask] at hf
    rw [hf]
    rfl

theorem c6_toggle_spec_witness :
    (toggleTask ⟨[⟨1, "a", none, false, false, "c0", "u0"⟩], [], 2, 1⟩ 1 "t1").1 =
      ToggleOutcome.ok ∧
    fetchTask (toggleTask ⟨[⟨1, "a", none, false, false, "c0", "u0"⟩], [], 2, 1⟩ 1 "t1").2 1 =
      some ⟨1, "a", none, true, false, "c0", "t1"⟩ :=
  (c6_toggle_spec ⟨[⟨1, "a", none, false, false, "c0", "u0"⟩], [], 2, 1⟩ 1 "t1").2.2
    ⟨1, "a", none, false, false, "c0", "u0"⟩ (by decide) rfl

/-- C10: any show value outside all/completed/deleted produces exactly the
show=active listing, and any sort value other than due produces exactly the
sort=recent listing. -/
theorem c10_query_fallback (tasks : List TaskRow) (shw srt : String) :
    (shw ≠ "all" → shw ≠ "completed" → shw ≠ "deleted" →
      listTasks shw srt tasks = listTasks "active" srt tasks) ∧
    (srt ≠ "due" → listTasks shw srt tasks = listTasks shw "recent" tasks) := by
  constructor
  · intro h1 h2 h3
    have hs : filterShow shw tasks = filterShow "active" tasks := by
      unfold filterShow
      rw [if_neg h1, if_neg h2, if_neg h3]
      rw [if_neg (by decide : ¬("active" : String) = "all")]
      rw [if_neg (by decide : ¬("active" : String) = "completed")]
      rw [if_neg (by decide : ¬("active" : String) = "deleted")]
    simp only [listTasks, hs]
  · intro h
    simp only [listTasks]
    rw [if_neg h, if_neg (by decide : ¬("recent" : String) = "due")]

theorem c10_query_fallback_witness :
    listTasks "garbage" "recent" [⟨1, "a", none, false, false, "c0", "u0"⟩] =
      listTasks "active" "recent" [⟨1, "a", none, false, false, "c0", "u0"⟩] ∧
    listTasks "active" "newest" [⟨1, "a", none, false, false, "c0", "u0"⟩] =
      listTasks "active" "recent" [⟨1, "a", none, false, false, "c0", "u0"⟩] :=
  ⟨(c10_query_fallback [⟨1, "a", none, false, false, "c0", "u0"⟩] "garbage" "recent").1
      (by decide) (by decide) (by decide),
   (c10_query_fallback [⟨1, "a", none, false, false, "c0", "u0"⟩] "active" "newest").2
      (by decide)⟩

theorem strLt_asymm {a b : String} (h : strLt a b = true) : strLt b a = false := by
  cases hba : strLt b a
  · rfl
  · have hx := strLtAux_trans a.data b.data a.data h hba
    rw [strLtAux_irrefl] at hx
    exact absurd hx (by simp)

theorem strLt_ne {a b : String} (h : strLt a b = true) : a ≠ b := by
  intro e
  subst e
  rw [strLt, strLtAux_irrefl] at h
  exact absurd h (by simp)

/-- C4: for a non-deleted, non-done task with a (non-empty) due date the
badge is Overdue when due < today, Due today when due = today and Scheduled
when today < due; a deleted task, a done task or a task with no due date
gets no badge; and the decoration step returns every row unchanged, so the
classification is never written back to the store. -/
theorem c4_badge_spec (t : TaskRow) (today : String) :
    (∀ d, t.deleted = false → t.done = false → t.due = some d → d ≠ "" →
      ((strLt d today = true → badge t today = some ("Overdue", "danger")) ∧
       (d = today → badge t today = some ("Due today", "warning")) ∧
       (strLt today d = true → badge t today = some ("Scheduled", "secondary")))) ∧
    ((t.deleted = true ∨ t.done = true ∨ t.due = none ∨ t.due = some "") →
      badge t today = none) ∧
    (∀ tasks : List TaskRow, (decorate tasks today).map Prod.fst = tasks) := by
  refine ⟨?_, ?_, ?_⟩
  · intro d hdel hdone hdue hne
    refine ⟨?_, ?_, ?_⟩
    · intro hlt
      simp [badge, hdel, hdone, hdue, dueTruthy, hne, hlt]
    · intro he
      subst he
      simp [badge, hdel, hdone, hdue, dueTruthy, hne, strLt, strLtAux_irrefl]
    · intro hgt
      have h1 : strLt d today = false := strLt_asymm hgt
      have h2 : d ≠ today := Ne.symm (strLt_ne hgt)
      simp [badge, hdel, hdone, hdue, dueTruthy, hne, h1, h2]
  · intro h
    rcases h with h | h | h | h
    · simp [badge, h]
    · simp [badge, h]
    · simp [badge, dueTruthy, h]
    · simp [badge, dueTruthy, h]
  · intro tasks
    simp [decorate, Function.comp_def]

theorem c4_badge_spec_witness :
    strLt "2025-06-14" "2025-06-15" = true ∧
    badge ⟨1, "a", some "2025-06-14", false, false, "c0", "u0"⟩ "2025-06-15" =
      some ("Overdue", "danger") ∧
    badge ⟨2, "b", some "2025-06-01", true, false, "c0", "u0"⟩ "2025-06-15" = none :=
  ⟨by decide,
   ((c4_badge_spec ⟨1, "a", some "2025-06-14", false, false, "c0", "u0"⟩ "2025-06-15").1
      "2025-06-14" rfl rfl rfl (by decide)).1 (by decide),
   (c4_badge_spec ⟨2, "b", some "2025-06-01", true, false, "c0", "u0"⟩ "2025-06-15").2.1
      (Or.inr (Or.inl rfl))⟩

/-- C8: when the most recent event is a toggle and its task row exists, undo
sets that row's done back to the stored before_done and refreshes
updated_at, leaving title, due_date, deleted and created_at as they were,
and leaves every task with a different id exactly where it was. -/
theorem c8_undo_toggle_frame (db : DB) (ts : String) (ev : Event) (pb pa : Bool) (t : TaskRow)
    (hm : mostRecent db.events = some ev)
    (ha : ev.action = .toggle pb pa)
    (hf : fetchTask db ev.taskId = some t) :
    (undoLast db ts).1 = UndoOutcome.undone ∧
    fetchTask (undoLast db ts).2 ev.taskId =
      some ⟨t.id, t.title, t.due, pb, t.deleted, t.createdAt, ts⟩ ∧
    (∀ u : TaskRow, u.id ≠ ev.taskId → (u ∈ (undoLast db ts).2.tasks ↔ u ∈ db.tasks)) := by
  have hstep : undoLast db ts =
      (.undone,
       { db with
         tasks := updateById db.tasks ev.taskId (fun u => { u with done := pb, updatedAt := ts }),
         events := db.events.filter (fun e => e.id != ev.id) }) := by
    simp [undoLast, hm, ha]
  rw [hstep]
  refine ⟨rfl, ?_, ?_⟩
  · simp only [fetchTask]
    rw [find?_updateById db.tasks ev.taskId
          (fun u => { u with done := pb, updatedAt := ts }) (fun u => rfl)]
    simp only [fetchTask] at hf
    rw [hf]
    rfl
  · intro u hu
    exact @mem_updateById_iff db.tasks ev.taskId
      (fun v => { v with done := pb, updatedAt := ts }) (fun v => rfl) u hu

theorem c8_undo_toggle_frame_witness :
    (undoLast ⟨[⟨1, "a", none, true, false, "c0", "u0"⟩],
               [⟨7, .toggle false true, 1, "e0"⟩], 2, 8⟩ "t1").1 = UndoOutcome.undone ∧
    fetchTask (undoLast ⟨[⟨1, "a", none, true, false, "c0", "u0"⟩],
               [⟨7, .toggle false true, 1, "e0"⟩], 2, 8⟩ "t1").2 1 =
      some ⟨1, "a", none, false, false, "c0", "t1"⟩ :=
  have h := c8_undo_toggle_frame
    ⟨[⟨1, "a", none, true, false, "c0", "u0"⟩], [⟨7, .toggle false true, 1, "e0"⟩], 2, 8⟩
    "t1" ⟨7, .toggle false true, 1, "e0"⟩ false true
    ⟨1, "a", none, true, false, "c0", "u0"⟩ (by decide) rfl (by decide)
  ⟨h.1, h.2.1⟩

/-- C9: when the most recent event is a delete and its task row exists, undo
only clears the deleted flag and refreshes updated_at, using nothing from
the payload: the stored title, was_done and due_date are not applied, so the
row keeps its current title, done and due values (for instance ones edited
while the task was deleted); every task with a different id stays exactly
where it was. -/
theorem c9_undo_delete_frame (db : DB) (ts : String) (ev : Event)
    (pt : String) (pw : Bool) (pd : Option String) (t : TaskRow)
    (hm : mostRecent db.events = some ev)
    (ha : ev.action = .delete pt pw pd)
    (hf : fetchTask db ev.taskId = some t) :
    (undoLast db ts).1 = UndoOutcome.undone ∧
    fetchTask (undoLast db ts).2 ev.taskId =
      some ⟨t.id, t.title, t.due, t.done, false, t.createdAt, ts⟩ ∧
    (∀ u : TaskRow, u.id ≠ ev.taskId → (u ∈ (undoLast db ts).2.tasks ↔ u ∈ db.tasks)) := by
  have hstep : undoLast db ts =
      (.undone,
       { db with
         tasks := updateById db.tasks ev.taskId (fun u => { u with deleted := false, updatedAt := ts }),
         events := db.events.filter (fun e => e.id != ev.id) }) := by
    simp [undoLast, hm, ha]
  rw [hstep]
  refine ⟨rfl, ?_, ?_⟩
  · simp only [fetchTask]
    rw [find?_updateById db.tasks ev.taskId
          (fun u => { u with deleted := false, updatedAt := ts }) (fun u => rfl)]
    simp only [fetchTask] at hf
    rw [hf]
    rfl
  · intro u hu
    exact @mem_updateById_iff db.tasks ev.taskId
      (fun v => { v with deleted := false, updatedAt := ts }) (fun v => rfl) u hu

theorem c9_undo_delete_frame_witness :
    (undoLast ⟨[⟨1, "edited", some "2025-01-01", true, true, "c0", "u0"⟩],
               [⟨3, .delete "old" false none, 1, "e0"⟩], 2, 4⟩ "t1").1 = UndoOutcome.undone ∧
    fetchTask (undoLast ⟨[⟨1, "edited", some "2025-01-01", true, true, "c0", "u0"⟩],
               [⟨3, .delete "old" false none, 1, "e0"⟩], 2, 4⟩ "t1").2 1 =
      some ⟨1, "edited", some "2025-01-01", true, false, "c0", "t1"⟩ :=
  have h := c9_undo_delete_frame
    ⟨[⟨1, "edited", some "2025-01-01", true, true, "c0", "u0"⟩],
     [⟨3, .delete "old" false none, 1, "e0"⟩], 2, 4⟩
    "t1" ⟨3, .delete "old" false none, 1, "e0"⟩ "old" false none
    ⟨1, "edited", some "2025-01-01", true, true, "c0", "u0"⟩ (by decide) rfl (by decide)
  ⟨h.1, h.2.1⟩

theorem filterShow_subset (shw : String) (tasks : List TaskRow) :
    ∀ t ∈ filterShow shw tasks, t ∈ tasks := by
  intro t ht
  unfold filterShow at ht
  split_ifs at ht <;> exact List.mem_of_mem_filter ht

/-- What one comparison dueLe a b says about a pair of rows drawn from a
state in which the empty-string due value does not occur (add_task and
edit_task store NULL instead of an empty due_date, so live rows never
carry one). -/
theorem dueLe_extract {a b : TaskRow} (ha : a.due ≠ some "") (hb : b.due ≠ some "")
    (h : dueLe a b = true) :
    (noDue b = false → noDue a = false) ∧
    (∀ x y, a.due = some x → b.due = some y → strLe x y = true) ∧
    (a.due = b.due → strLe b.updatedAt a.updatedAt = true) ∧
    (noDue a = true → noDue b = true → strLe b.updatedAt a.updatedAt = true) := by
  refine ⟨?_, ?_, ?_, ?_⟩
  · intro hnb
    cases hna : noDue a with
    | false => rfl
    | true =>
      exfalso
      simp [dueLe, dueBucket, hna, hnb] at h
  · intro x y hx hy
    have hxne : x ≠ "" := fun e => ha (by rw [hx, e])
    have hyne : y ≠ "" := fun e => hb (by rw [hy, e])
    have hna : noDue a = false := by simp [noDue, hx, hxne]
    have hnb : noDue b = false := by simp [noDue, hy, hyne]
    have hbab : dueBucket a = dueBucket b := by simp [dueBucket, hna, hnb]
    by_cases hd : a.due = b.due
    · have hxy : x = y := by
        rw [hx, hy] at hd
        exact Option.some.inj hd
      rw [hxy]
      exact strLe_refl y
    · simp only [dueLe, if_pos hbab, if_neg hd] at h
      rw [hx, hy] at h
      simp only [dueFieldLt] at h
      exact strLt_le h
  · intro hd
    have hbab := dueBucket_congr hd
    simp only [dueLe, if_pos hbab, if_pos hd] at h
    exact h
  · intro hna hnb
    have hda : a.due = none := by
      cases hd : a.due with
      | none => rfl
      | some d =>
        have hde : d = "" := by simpa [noDue, hd] using hna
        exact absurd (by rw [hd, hde]) ha
    have hdb : b.due = none := by
      cases hd : b.due with
      | none => rfl
      | some d =>
        have hde : d = "" := by simpa [noDue, hd] using hnb
        exact absurd (by rw [hd, hde]) hb
    have hd : a.due = b.due := by rw [hda, hdb]
    have hbab := dueBucket_congr hd
    simp only [dueLe, if_pos hbab, if_pos hd] at h
    exact h

/-- What the claim asserts of each ordered pair of rows in the sort=due
listing: no dated row after an undated one; dated rows ascending by due
value; equal due values (and pairs of undated rows) arranged by updated_at
descending. -/
def dueOrderSpec (a b : TaskRow) : Prop :=
  (noDue b = false → noDue a = false) ∧
  (∀ x y, a.due = some x → b.due = some y → strLe x y = true) ∧
  (a.due = b.due → strLe b.updatedAt a.updatedAt = true) ∧
  (noDue a = true → noDue b = true → strLe b.updatedAt a.updatedAt = true)

/-- C3: the show=active listing never contains a deleted or a done row,
whatever the sort; and the sort=due listing, whatever the show filter,
satisfies dueOrderSpec pairwise: dated rows come before undated ones and
ascend by due date, ties arranged by updated_at descending. Stated for
states whose rows carry no empty-string due_date (the operations only ever
store NULL or a non-empty text). -/
theorem c3_listing_spec (tasks : List TaskRow)
    (hne : ∀ t ∈ tasks, t.due ≠ some "") :
    (∀ srt, ∀ t ∈ listTasks "active" srt tasks, t.deleted = false ∧ t.done = false) ∧
    (∀ shw, (listTasks shw "due" tasks).Pairwise dueOrderSpec) := by
  constructor
  · intro srt t ht
    have hmem : t ∈ filterShow "active" tasks := by
      simp only [listTasks] at ht
      by_cases h : srt = "due"
      · rw [if_pos h] at ht
        exact (List.perm_insertionSort dueLeP _).subset ht
      · rw [if_neg h] at ht
        exact (List.perm_insertionSort recentLeP _).subset ht
    have hmem' : t ∈ tasks.filter (fun t => !t.deleted && !t.done) := by
      unfold filterShow at hmem
      rw [if_neg (by decide : ¬("active" : String) = "all"),
          if_neg (by decide : ¬("active" : String) = "completed"),
          if_neg (by decide : ¬("active" : String) = "deleted")] at hmem
      exact hmem
    have hp := List.of_mem_filter hmem'
    simp only [Bool.and_eq_true, Bool.not_eq_true'] at hp
    exact hp
  · intro shw
    have hd : listTasks shw "due" tasks = List.insertionSort dueLeP (filterShow shw tasks) := by
      simp [listTasks]
    rw [hd]
    have hsub : ∀ t ∈ List.insertionSort dueLeP (filterShow shw tasks), t.due ≠ some "" :=
      fun t ht =>
        hne t (filterShow_subset shw tasks t ((List.perm_insertionSort dueLeP _).subset ht))
    refine List.Pairwise.imp_of_mem ?_ (pairwise_sort_dueLe (filterShow shw tasks))
    intro a b hma hmb hab
    exact dueLe_extract (hsub a hma) (hsub b hmb) hab

theorem c3_listing_spec_witness :
    ((⟨2, "b", some "2025-06-01", false, false, "c0", "u2"⟩ : TaskRow) ∈
        listTasks "active" "recent"
          [⟨1, "a", none, false, false, "c0", "u1"⟩,
           ⟨2, "b", some "2025-06-01", false, false, "c0", "u2"⟩]) ∧
    ((⟨2, "b", some "2025-06-01", false, false, "c0", "u2"⟩ : TaskRow).deleted = false ∧
     (⟨2, "b", some "2025-06-01", false, false, "c0", "u2"⟩ : TaskRow).done = false) ∧
    (listTasks "active" "due"
      [⟨1, "a", none, false, false, "c0", "u1"⟩,
       ⟨2, "b", some "2025-06-01", false, false, "c0", "u2"⟩]).Pairwise dueOrderSpec :=
  ⟨by decide,
   (c3_listing_spec
      [⟨1, "a", none, false, false, "c0", "u1"⟩,
       ⟨2, "b", some "2025-06-01", false, false, "c0", "u2"⟩]
      (by decide)).1 "recent" ⟨2, "b", some "2025-06-01", false, false, "c0", "u2"⟩ (by decide),
   (c3_listing_spec
      [⟨1, "a", none, false, false, "c0", "u1"⟩,
       ⟨2, "b", some "2025-06-01", false, false, "c0", "u2"⟩]
      (by decide)).2 "active"⟩

theorem chain_hev1 {evs : List Event} {m : Nat} (h : ∀ x ∈ evs, x.id < m)
    (e1 : Event) (h1 : e1.id = m) :
    ∀ x ∈ evs ++ [e1], x.id < m + 1 := by
  apply forall_id_lt_append
  · intro x hx
    have := h x hx
    omega
  · omega

theorem chain_hev2 {evs : List Event} {m : Nat} (h : ∀ x ∈ evs, x.id < m)
    (e1 e2 : Event) (h1 : e1.id = m) (h2 : e2.id = m + 1) :
    ∀ x ∈ (evs ++ [e1]) ++ [e2], x.id < m + 1 + 1 := by
  apply forall_id_lt_append
  · apply forall_id_lt_append
    · intro x hx
      have := h x hx
      omega
    · omega
  · omega

theorem chain_hev3 {evs : List Event} {m : Nat} (h : ∀ x ∈ evs, x.id < m)
    (e1 e2 e3 : Event) (h1 : e1.id = m) (h2 : e2.id = m + 1) (h3 : e3.id = m + 1 + 1) :
    ∀ x ∈ ((evs ++ [e1]) ++ [e2]) ++ [e3], x.id < m + 1 + 1 + 1 := by
  apply forall_id_lt_append
  · apply forall_id_lt_append
    · apply forall_id_lt_append
      · intro x hx
        have := h x hx
        omega
      · omega
    · omega
  · omega

/-- C2: from any well-formed state (live ids below the AUTOINCREMENT
counters), create followed by edit, toggle and delete of the created task,
then four undos in a row, leaves the task table exactly as it started — in
particular with no row carrying the created id — and leaves the event table
exactly as it started; only the id counters have advanced. -/
theorem c2_undo_chain (db : DB) (title1 due1 title2 due2 ts1 ts2 ts3 ts4 ts5 ts6 ts7 ts8 : String)
    (h1 : pyStrip title1 ≠ "") (h2 : pyStrip title2 ≠ "")
    (hT : ∀ x ∈ db.tasks, x.id < db.nextTaskId)
    (hE : ∀ x ∈ db.events, x.id < db.nextEventId) :
    (undoLast (undoLast (undoLast (undoLast
        (deleteTask
          (toggleTask
            (editTask (addTask db title1 due1 ts1) db.nextTaskId title2 due2 ts2).2
            db.nextTaskId ts3).2
          db.nextTaskId ts4).2
        ts5).2 ts6).2 ts7).2 ts8).2 =
      ⟨db.tasks, db.events, db.nextTaskId + 1, db.nextEventId + 1 + 1 + 1 + 1⟩ ∧
    (∀ u ∈ db.tasks, u.id ≠ db.nextTaskId) := by
  have hfresh : ∀ x ∈ db.tasks, x.id ≠ db.nextTaskId := fun x hx => Nat.ne_of_lt (hT x hx)
  refine ⟨?_, hfresh⟩
  rw [addTask_valid h1]
  rw [editTask_fresh2 h2 hfresh]
  rw [toggleTask_fresh2 hfresh]
  rw [deleteTask_fresh2 hfresh]
  rw [undoLast_last_del2 hfresh (chain_hev3 hE _ _ _ rfl rfl rfl)]
  rw [undoLast_last_toggle2 hfresh (chain_hev2 hE _ _ rfl rfl)]
  rw [undoLast_last_edit2 hfresh (chain_hev1 hE _ rfl)]
  rw [undoLast_last_create2 hfresh hE]

theorem c2_undo_chain_witness :
    pyStrip "a" ≠ "" ∧ pyStrip "b" ≠ "" ∧
    (undoLast (undoLast (undoLast (undoLast
        (deleteTask
          (toggleTask
            (editTask
              (addTask ⟨[⟨1, "z", none, false, false, "c0", "u0"⟩],
                        [⟨1, .create "z" none, 1, "e0"⟩], 2, 2⟩ "a" "" "t1")
              2 "b" "2025-01-01" "t2").2
            2 "t3").2
          2 "t4").2
        "t5").2 "t6").2 "t7").2 "t8").2 =
      ⟨[⟨1, "z", none, false, false, "c0", "u0"⟩],
       [⟨1, .create "z" none, 1, "e0"⟩], 3, 6⟩ :=
  ⟨by decide, by decide,
   (c2_undo_chain ⟨[⟨1, "z", none, false, false, "c0", "u0"⟩],
        [⟨1, .create "z" none, 1, "e0"⟩], 2, 2⟩
      "a" "" "b" "2025-01-01" "t1" "t2" "t3" "t4" "t5" "t6" "t7" "t8"
      (by decide) (by decide)
      (by intro x hx; simp at hx; subst hx; decide)
      (by intro x hx; simp at hx; subst hx; decide)).1⟩

/-- C1 concerns undo when the most recent event points at a task id with no
row (reachable by undoing a create that still has a later toggle event in
the log). The claim — and section 7 of the spec — expect the undo to fail
with UndoFailed and to keep the event. The code cannot do that: its except
branch only fires when applying the inverse raises, and in SQLite an UPDATE
whose WHERE clause matches no row succeeds silently, so undo_last falls
through, deletes the stale event and flashes success. The except branch
even carries the message text for exactly this case (the task may have been
removed), showing the intent the code fails to implement. This theorem
evaluates the embedded undo_last at such a state: no task is mutated, but
the outcome is undone (success) and the event log loses the stale event,
contradicting the claim. -/
theorem c1_undo_stale_toggle_behavior :
    undoLast ⟨[⟨3, "k", none, false, false, "c0", "u0"⟩],
              [⟨1, .toggle false true, 5, "e0"⟩], 6, 2⟩ "t1" =
      (UndoOutcome.undone, ⟨[⟨3, "k", none, false, false, "c0", "u0"⟩], [], 6, 2⟩) := by
  decide
